import Mathlib

/-!
Verification of the task-notifier configuration engine.

This file gives a shallow embedding of the repository's two core
subsystems and proves properties about them:

* `src/utils/validation.js` — the sanitizers (`ValidationUtils.sanitizeInput`,
  `sanitizeForPowerShell`, `sanitizeForAppleScript`), `isStringSafe`, and the
  command validator `validateCommand` with its macOS / Windows branches;
* `src/platforms/macos.js` and the Windows platform — `createCommand`;
* `src/config/settings.ts` — the `ClaudeSettings` store: `load`, `save`,
  `_validateSettings`, `mergeHooks`, `removeHooks`, `removeAllHooks`.

JavaScript values that can appear in a parsed JSON document are embedded as
the inductive type `JsonValue`; JS objects become association lists in
insertion order (JS objects have unique keys, and property update preserves
position while a fresh key is appended, which `setField` mirrors).
JS truthiness, `typeof x === 'object'`, `Array.isArray`, property reads
(including the `TypeError` on reading a property of `null`), `Object.entries`,
`Object.keys` and object spread are modelled explicitly below.
-/

/-- A JSON value, as produced by `JSON.parse`.  JS `undefined` does not occur
in a parsed document; an absent object property is `Option.none` at use
sites. Numbers are embedded as integers (no claim depends on non-integral
numerics). -/
inductive JsonValue where
  | null
  | bool (b : Bool)
  | num (n : Int)
  | str (s : String)
  | arr (elems : List JsonValue)
  | obj (fields : List (String × JsonValue))

/-- JS truthiness of a JSON value (`null`, `false`, `0`, `""` are falsy;
every array and object is truthy). -/
def JsonValue.truthy : JsonValue → Bool
  | .null => false
  | .bool b => b
  | .num n => n != 0
  | .str s => s != ""
  | .arr _ => true
  | .obj _ => true

/-- `typeof v === 'object'` (true for objects, arrays and `null`). -/
def JsonValue.typeofIsObject : JsonValue → Bool
  | .null => true
  | .obj _ => true
  | .arr _ => true
  | _ => false

/-- `Array.isArray`. -/
def JsonValue.isArr : JsonValue → Bool
  | .arr _ => true
  | _ => false

def JsonValue.isNull : JsonValue → Bool
  | .null => true
  | _ => false

def JsonValue.isStr : JsonValue → Bool
  | .str _ => true
  | _ => false

/-- First-match lookup in an object's field list (JS objects have unique
keys, so first match is the key's value). -/
def lookupField : List (String × JsonValue) → String → Option JsonValue
  | [], _ => none
  | (k, v) :: rest, key => if k = key then some v else lookupField rest key

/-- JS property assignment `o[key] = v`: an existing key keeps its position,
a new key is appended at the end. -/
def setField : List (String × JsonValue) → String → JsonValue → List (String × JsonValue)
  | [], key, v => [(key, v)]
  | (k, w) :: rest, key, v =>
      if k = key then (k, v) :: rest else (k, w) :: setField rest key v

/-- JS `delete o[key]`. -/
def eraseField (fields : List (String × JsonValue)) (key : String) :
    List (String × JsonValue) :=
  fields.filter (fun p => p.1 ≠ key)

/-- `Object.entries`: an object's own enumerable entries; an array's index
entries; a string's character index entries; nothing for the primitives. -/
def objEntries : JsonValue → List (String × JsonValue)
  | .obj fields => fields
  | .arr elems => (elems.enum).map (fun p => (toString p.1, p.2))
  | .str s => (s.toList.enum).map (fun p => (toString p.1, JsonValue.str (String.mk [p.2])))
  | _ => []

/-- `Object.keys`. -/
def jsKeysList (v : JsonValue) : List String :=
  (objEntries v).map Prod.fst

def jsKeysCount (v : JsonValue) : Nat :=
  (jsKeysList v).length

/-- Operations recorded in a `SettingsError` (the `SettingsOperation` enum of
`src/types`). -/
inductive SettingsOperation where
  | read | write | parse | validate | mergeHooks | removeHooks | getData | getHooks
deriving DecidableEq, Repr

/-- `SettingsError(message, operation, path, details)`; the free-form
`details` payload carries no information the claims consult and is omitted. -/
structure SettingsError where
  message : String
  operation : SettingsOperation
  path : String
deriving DecidableEq, Repr

/-- An error escaping a `ClaudeSettings` operation: either a `SettingsError`
thrown by the code itself, or a raw JS `TypeError` (reading a property of
`null`, or creating a property on a primitive in strict mode). -/
inductive JsError where
  | settings (e : SettingsError)
  | typeError (message : String)
deriving DecidableEq, Repr

/-- JS property read `v[key]`: `none` is `undefined`; reading a property of
`null` throws a `TypeError`; properties of the other primitives and of
arrays read as `undefined` for the (non-index) keys used by this code. -/
def getProp : JsonValue → String → Except JsError (Option JsonValue)
  | .obj fields, key => .ok (lookupField fields key)
  | .null, key => .error (.typeError ("Cannot read properties of null (reading " ++ key ++ ")"))
  | _, _ => .ok none

/-! ## Sanitizers (`src/utils/validation.js`) -/

/-- The backtick character (avoids a raw backtick in source). -/
def backtickChar : Char := Char.ofNat 96

/-- A character matched by the JS `\s` class (the ASCII portion; the claims
only involve ASCII input). -/
def isJsSpace (c : Char) : Bool :=
  c = ' ' || c = '\t' || c = '\n' || c = '\r' || c = Char.ofNat 11 || c = Char.ofNat 12

/-- A character matched by JS `\w`, i.e. `[A-Za-z0-9_]`. -/
def isWordChar (c : Char) : Bool :=
  c.isAlphanum || c = '_'

/-- `.replace(/[`$"\\]/g, '')`: remove backticks, dollar signs, double
quotes, backslashes. -/
def removeDangerous (l : List Char) : List Char :=
  l.filter (fun c => !(c = backtickChar || c = '$' || c = '"' || c = '\\'))

/-- `.replace(/[^\w\s!?.-]/g, '')`: keep only word characters, whitespace
and the safe punctuation `! ? . -`. -/
def keepSafe (l : List Char) : List Char :=
  l.filter (fun c => isWordChar c || isJsSpace c || c = '!' || c = '?' || c = '.' || c = '-')

/-- JS `String.prototype.trim`: strip whitespace from both ends. -/
def jsTrim (l : List Char) : List Char :=
  ((l.dropWhile isJsSpace).reverse.dropWhile isJsSpace).reverse

/-- `.replace(/'/g, "''")`: double every single quote (PowerShell escape). -/
def escapePsQuotes (l : List Char) : List Char :=
  l.flatMap (fun c => if c = '\'' then ['\'', '\''] else [c])

/-- `.replace(/['"\\]/g, '\\$&')`: prefix quotes and backslashes with a
backslash (AppleScript escape). -/
def appleScriptEscape (l : List Char) : List Char :=
  l.flatMap (fun c => if c = '\'' || c = '"' || c = '\\' then ['\\', c] else [c])

/-- `ValidationUtils.sanitizeInput`: non-string input maps to the empty
string; otherwise remove dangerous characters, whitelist-filter, trim. -/
def ValidationUtils.sanitizeInput (input : JsonValue) : String :=
  match input with
  | .str s => String.mk (jsTrim (keepSafe (removeDangerous s.toList)))
  | _ => ""

/-- `ValidationUtils.sanitizeForPowerShell`: escape single quotes, remove
dangerous characters, whitelist-filter, trim. -/
def ValidationUtils.sanitizeForPowerShell (input : JsonValue) : String :=
  match input with
  | .str s => String.mk (jsTrim (keepSafe (removeDangerous (escapePsQuotes s.toList))))
  | _ => ""

/-- `ValidationUtils.sanitizeForAppleScript`: escape quotes/backslashes,
replace line breaks by spaces, trim. -/
def ValidationUtils.sanitizeForAppleScript (input : JsonValue) : String :=
  match input with
  | .str s =>
      String.mk (jsTrim ((appleScriptEscape s.toList).map
        (fun c => if c = '\r' || c = '\n' then ' ' else c)))
  | _ => ""

/-! ## Pattern matching for the validator regexes

The dangerous-pattern regexes of `validation.js` are alternations of
literal words separated by `\s+` (or a single trailing `\s`).  They are
embedded as token sequences: a literal, or one-or-more whitespace.  Since in
every pattern a whitespace token is followed by a literal starting with a
non-space character (or ends the pattern), consuming the maximal whitespace
run is equivalent to the regex's backtracking search. -/

inductive RTok where
  | lit (cs : List Char)
  | ws

def litT (s : String) : RTok := .lit s.toList

/-- Consume one token from the front of the remaining input (`none` once a
token has failed to match). -/
def stepTok (st : Option (List Char)) (tok : RTok) : Option (List Char) :=
  match st with
  | none => none
  | some s =>
      match tok with
      | .lit cs => if cs.isPrefixOf s then some (s.drop cs.length) else none
      | .ws =>
          match s with
          | [] => none
          | c :: rest => if isJsSpace c then some (rest.dropWhile isJsSpace) else none

/-- Match a token sequence at the start of `s`. -/
def matchToks (toks : List RTok) (s : List Char) : Bool :=
  (toks.foldl stepTok (some s)).isSome

/-- Match a token sequence anywhere in `s` (regex `.test`). -/
def searchToks (toks : List RTok) (s : List Char) : Bool :=
  s.tails.any (matchToks toks)

def containsStr (l : List Char) (pat : String) : Bool :=
  l.tails.any (fun t => pat.toList.isPrefixOf t)

/-- Lower-cased character list of a string (for the `/i` regexes; JS and
Lean agree on ASCII case folding). -/
def lowerList (s : String) : List Char :=
  s.toList.map Char.toLower

/-- `/New-Object.*Process/i`: `New-Object`, then `Process` later on the same
line (`.` does not match line breaks). -/
def newObjectThenProcess (low : List Char) : Bool :=
  low.tails.any (fun t =>
    "new-object".toList.isPrefixOf t &&
    ((t.drop 10).takeWhile (fun c => !(c = '\n' || c = '\r'))).tails.any
      (fun u => "process".toList.isPrefixOf u))

/-- `ValidationUtils.isStringSafe`: no dangerous pattern matches.  (The
source returns `false` for non-string input; callers in this file always
pass a string.) -/
def ValidationUtils.isStringSafe (s : String) : Bool :=
  let l := s.toList
  let low := l.map Char.toLower
  !((l.any (fun c => c = ';' || c = '&' || c = '|' || c = backtickChar || c = '$')) ||
    containsStr l ".." ||
    (containsStr l "/etc/" || containsStr l "/bin/" || containsStr l "/usr/") ||
    searchToks [litT "rm", .ws] low ||
    searchToks [litT "del", .ws] low ||
    searchToks [litT "format", .ws] low ||
    containsStr low "shutdown" ||
    containsStr low "reboot" ||
    (containsStr low "wget" || containsStr low "curl") ||
    (searchToks [litT "nc", .ws] low || containsStr low "netcat"))

/-- Result of `ValidationUtils.validateCommand` (`{ isValid, error?, code? }`). -/
inductive CmdValidation where
  | valid
  | invalid (error : String) (code : String)
deriving DecidableEq, Repr

/-- `ValidationUtils._validateMacOSCommand`. -/
def ValidationUtils.validateMacOSCommand (command : String) : CmdValidation :=
  if !("osascript -e 'display notification".toList.isPrefixOf command.toList) then
    .invalid "macOS command must be an osascript display notification command" "INVALID_MACOS_COMMAND"
  else if !("'".toList.isSuffixOf command.toList) && !("'\"".toList.isSuffixOf command.toList) then
    .invalid "macOS command must be properly quoted" "MALFORMED_MACOS_COMMAND"
  else if
    searchToks [litT "do", .ws, litT "shell", .ws, litT "script"] (lowerList command) ||
    searchToks [litT "system", .ws, litT "events"] (lowerList command) ||
    searchToks [litT "tell", .ws, litT "application"] (lowerList command) ||
    searchToks [litT "run", .ws, litT "script"] (lowerList command)
  then .invalid "Command contains prohibited AppleScript patterns" "APPLESCRIPT_INJECTION"
  else .valid

/-- `ValidationUtils._validateWindowsCommand`. -/
def ValidationUtils.validateWindowsCommand (command : String) : CmdValidation :=
  if !("powershell -NoProfile -Command \"".toList.isPrefixOf command.toList) then
    .invalid "Windows command must be a PowerShell command with -NoProfile" "INVALID_WINDOWS_COMMAND"
  else if !("\"".toList.isSuffixOf command.toList) then
    .invalid "Windows command must be properly quoted" "MALFORMED_WINDOWS_COMMAND"
  else if
    (let low := lowerList command
     containsStr low "invoke-expression" ||
     searchToks [litT "iex", .ws] low ||
     containsStr low "invoke-command" ||
     containsStr low "invoke-webrequest" ||
     containsStr low "download" ||
     containsStr low "webclient" ||
     containsStr low "start-process" ||
     newObjectThenProcess low ||
     containsStr low "$env:" ||
     containsStr low "registry" ||
     containsStr low "get-credential" ||
     containsStr low "convertto-securestring" ||
     containsStr low "export-" ||
     containsStr low "import-module" ||
     containsStr low "remove-" ||
     containsStr low "stop-" ||
     containsStr low "restart-")
  then .invalid "Command contains prohibited PowerShell patterns" "POWERSHELL_INJECTION"
  else .valid

/-- `ValidationUtils.validateCommand` (the empty string is the only falsy JS
string, so `!command` is the emptiness test). -/
def ValidationUtils.validateCommand (command : String) (platform : String) : CmdValidation :=
  if command = "" then
    .invalid "Command must be a non-empty string" "INVALID_COMMAND_TYPE"
  else if !(ValidationUtils.isStringSafe command) then
    .invalid "Command contains potentially dangerous patterns" "UNSAFE_COMMAND"
  else if platform = "macos" then ValidationUtils.validateMacOSCommand command
  else if platform = "windows" then ValidationUtils.validateWindowsCommand command
  else .invalid ("Unknown platform: " ++ platform) "UNKNOWN_PLATFORM"

/-! ## Platform command builders -/

/-- `MacOSPlatform.createCommand` (`src/platforms/macos.js`): guard
(`!action || typeof action !== 'string'`, i.e. non-string or empty), then
inline AppleScript escaping and template assembly. -/
def MacOSPlatform.createCommand (action : JsonValue) (withSound : Bool) : Except String String :=
  match action with
  | .str a =>
      if a = "" then .error "Action must be a non-empty string"
      else
        let sanitizedAction := String.mk (appleScriptEscape a.toList)
        let soundPart := if withSound then " sound name \"Ping\"" else ""
        .ok ("osascript -e 'display notification \"Claude Task " ++ sanitizedAction ++
          "!\" with title \"Claude Code\"" ++ soundPart ++ "'")
  | _ => .error "Action must be a non-empty string"

/-- `WindowsPlatform._sanitizeForPowerShell`: like
`ValidationUtils.sanitizeForPowerShell` but without the final trim. -/
def WindowsPlatform.sanitizeLocal (s : String) : String :=
  String.mk (keepSafe (removeDangerous (escapePsQuotes s.toList)))

/-- `WindowsPlatform.createCommand`: same guard, then the PowerShell balloon
template.  The source accepts a `withSound` parameter and ignores it. -/
def WindowsPlatform.createCommand (action : JsonValue) (_withSound : Bool) : Except String String :=
  match action with
  | .str a =>
      if a = "" then .error "Action must be a non-empty string"
      else
        let sanitizedAction := WindowsPlatform.sanitizeLocal a
        let title := "Claude Code"
        let message := "Claude Task " ++ sanitizedAction ++ "!"
        let psCommand := String.intercalate "; " [
          "Add-Type -AssemblyName System.Windows.Forms",
          "$balloon = New-Object System.Windows.Forms.NotifyIcon",
          "$path = (Get-Process -Id $pid).Path",
          "$balloon.Icon = [System.Drawing.Icon]::ExtractAssociatedIcon($path)",
          "$balloon.BalloonTipIcon = [System.Windows.Forms.ToolTipIcon]::Warning",
          "$balloon.BalloonTipText = '" ++ WindowsPlatform.sanitizeLocal message ++ "'",
          "$balloon.BalloonTipTitle = '" ++ WindowsPlatform.sanitizeLocal title ++ "'",
          "$balloon.Visible = $true",
          "$balloon.ShowBalloonTip(5000)"]
        .ok ("powershell -NoProfile -Command \"" ++ psCommand ++ "\"")
  | _ => .error "Action must be a non-empty string"

/-! ## The settings store (`src/config/settings.ts`)

`ClaudeSettings` holds a file path, the in-memory document (`data`, JS
`null` before the first load) and the `_loaded` flag.  The on-disk file is
modelled at the level the `fs`/`JSON` externals expose it: absent, blank
(empty or whitespace-only, so that `content.trim()` is falsy), text that
`JSON.parse` rejects with a message, or text that parses to a value.
`JSON.stringify(v, null, 2)` produces text that is never blank and parses
back to `v`, so a successful write stores `FileText.valid v`.  I/O itself is
assumed to succeed (the READ/WRITE failure wrappers for `fs` exceptions and
the best-effort backup warning are outside this model). -/

inductive FileText where
  | blank
  | invalid (message : String)
  | valid (value : JsonValue)

structure SettingsState where
  path : String
  disk : Option FileText
  backup : Option FileText
  data : Option JsonValue
  loaded : Bool

/-- `ClaudeSettings.load`: missing file or blank content yield `{}`;
unparsable content raises a PARSE `SettingsError` with the parser message
(and leaves `data`/`_loaded` untouched); otherwise the parsed value is
stored and returned, and `_loaded` is set. -/
def ClaudeSettings.load (st : SettingsState) : Except JsError (SettingsState × JsonValue) :=
  match st.disk with
  | some ft =>
      match ft with
      | .blank =>
          let d := JsonValue.obj []
          .ok ({ st with data := some d, loaded := true }, d)
      | .invalid msg =>
          .error (.settings ⟨"Invalid JSON in settings file: " ++ msg, .parse, st.path⟩)
      | .valid v => .ok ({ st with data := some v, loaded := true }, v)
  | none =>
      let d := JsonValue.obj []
      .ok ({ st with data := some d, loaded := true }, d)

/-- One `hookItem` of a hook's array: `!hookItem.hooks ||
!Array.isArray(hookItem.hooks)` throws (arrays are always truthy, so the
two tests accept exactly a present array-valued `hooks` property; reading
the property of a `null` item throws a `TypeError`). -/
def validateHookItem (path hookName : String) (hookItem : JsonValue) : Except JsError Unit :=
  match getProp hookItem "hooks" with
  | .error e => .error e
  | .ok (some (.arr _)) => .ok ()
  | .ok _ =>
      .error (.settings ⟨"Hook '" ++ hookName ++ "' items must have a 'hooks' array",
        .validate, path⟩)

def validateHookItems (path hookName : String) : List JsonValue → Except JsError Unit
  | [] => .ok ()
  | item :: rest =>
      match validateHookItem path hookName item with
      | .error e => .error e
      | .ok _ => validateHookItems path hookName rest

/-- One event entry of the `hooks` map: its value must be an array, and
every element must pass `validateHookItem`. -/
def validateHookConfig (path hookName : String) (hookConfig : JsonValue) : Except JsError Unit :=
  match hookConfig with
  | .arr items => validateHookItems path hookName items
  | _ => .error (.settings ⟨"Hook '" ++ hookName ++ "' must be an array", .validate, path⟩)

def validateHooksEntries (path : String) : List (String × JsonValue) → Except JsError Unit
  | [] => .ok ()
  | (hookName, hookConfig) :: rest =>
      match validateHookConfig path hookName hookConfig with
      | .error e => .error e
      | .ok _ => validateHooksEntries path rest

/-- `ClaudeSettings._validateSettings`: the document must be a non-null
`typeof 'object'` value; a present truthy `hooks` must itself be of object
type and every entry must be an array of objects each exposing a `hooks`
array.  (A falsy `hooks` value is skipped by `if (data.hooks)`.) -/
def validateSettings (path : String) (data : JsonValue) : Except JsError Unit :=
  if data.isNull || !data.typeofIsObject then
    .error (.settings ⟨"Settings data must be an object", .validate, path⟩)
  else
    match getProp data "hooks" with
    | .error e => .error e
    | .ok none => .ok ()
    | .ok (some hv) =>
        if !hv.truthy then .ok ()
        else if !hv.typeofIsObject then
          .error (.settings ⟨"hooks must be an object", .validate, path⟩)
        else validateHooksEntries path (objEntries hv)

/-- `ClaudeSettings.save(data?)`: an explicit document replaces the
in-memory one; with nothing loaded and nothing passed it fails; otherwise
it validates, best-effort copies the on-disk content to the backup, and
writes the document.  A non-`SettingsError` exception from validation is
wrapped by the catch block as a WRITE failure. -/
def ClaudeSettings.save (st : SettingsState) (data? : Option JsonValue) :
    SettingsState × Except JsError Unit :=
  let st := match data? with
    | some d => { st with data := some d }
    | none => st
  if !st.loaded && st.data.isNone then
    (st, .error (.settings ⟨"No data to save. Load settings first or provide data parameter.",
      .write, st.path⟩))
  else
    let dataV := st.data.getD JsonValue.null
    match validateSettings st.path dataV with
    | .error (.settings e) => (st, .error (.settings e))
    | .error (.typeError m) =>
        (st, .error (.settings ⟨"Failed to write settings file: " ++ m, .write, st.path⟩))
    | .ok _ =>
        let st := match st.disk with
          | some ft => { st with backup := some ft }
          | none => st
        ({ st with disk := some (.valid dataV) }, .ok ())

/-- Object spread `{ ...a, ...b }` on entry lists: keys of `a` in order
(values overridden by `b` where shared), then the new keys of `b`. -/
def jsSpread2 (a b : List (String × JsonValue)) : List (String × JsonValue) :=
  a.map (fun p => match lookupField b p.1 with | some v => (p.1, v) | none => p)
    ++ b.filter (fun p => (lookupField a p.1).isNone)

/-- The entries the merge spreads from the existing document:
`if (!this.data.hooks) this.data.hooks = {}` makes a falsy or absent
`hooks` contribute nothing. -/
def hooksInitEntries (fields : List (String × JsonValue)) : List (String × JsonValue) :=
  match lookupField fields "hooks" with
  | some hv => if hv.truthy then objEntries hv else []
  | none => []

/-- `ClaudeSettings.mergeHooks` after the auto-load: reject a falsy or
non-object `newHooks`; replace `hooks` with the spread of the old and new
entries; re-validate the merged document (note the mutation happens before
validation).  On a non-object document the property write itself throws
(strict mode); named properties on an array are not JSON-representable and
are modelled as the same failure. -/
def ClaudeSettings.mergeHooksLoaded (st : SettingsState) (newHooks : JsonValue) :
    SettingsState × Except JsError Unit :=
  if !(newHooks.truthy && newHooks.typeofIsObject) then
    (st, .error (.settings ⟨"newHooks must be an object", .mergeHooks, st.path⟩))
  else
    match st.data.getD JsonValue.null with
    | .obj fields =>
        let merged := JsonValue.obj (jsSpread2 (hooksInitEntries fields) (objEntries newHooks))
        let fields' := setField fields "hooks" merged
        ({ st with data := some (JsonValue.obj fields') },
          validateSettings st.path (JsonValue.obj fields'))
    | .null => (st, .error (.typeError "Cannot read properties of null (reading hooks)"))
    | _ => (st, .error (.typeError "Cannot create property hooks on a non-object value"))

def ClaudeSettings.mergeHooks (st : SettingsState) (newHooks : JsonValue) :
    SettingsState × Except JsError Unit :=
  if st.loaded then ClaudeSettings.mergeHooksLoaded st newHooks
  else
    match ClaudeSettings.load st with
    | .error e => (st, .error e)
    | .ok (st', _) => ClaudeSettings.mergeHooksLoaded st' newHooks

/-- The removal loop: `if (this.data.hooks[hookName]) delete ...` — only a
truthy value is deleted. -/
def removeHookNamesFold (hfields : List (String × JsonValue)) (hookNames : List String) :
    List (String × JsonValue) :=
  hookNames.foldl (fun acc name =>
    match lookupField acc name with
    | some v => if v.truthy then eraseField acc name else acc
    | none => acc) hfields

/-- The deletion loop acts inside an object-valued `hooks`; a truthy
non-object `hooks` value is left as it is by the loop (deleting a numeric
index of a `hooks` string is a corner the model reads as a no-op). -/
def removeHooksStep (hookNames : List String) : JsonValue → JsonValue
  | .obj hfields => .obj (removeHookNamesFold hfields hookNames)
  | other => other

/-- `ClaudeSettings.removeHooks` after the auto-load (the `hookNames` guard
is discharged by the typed embedding): absent or falsy `hooks` returns with
no validation; otherwise delete each truthy named key, delete the whole
`hooks` key when `Object.keys` is empty afterwards, and re-validate. -/
def ClaudeSettings.removeHooksLoaded (st : SettingsState) (hookNames : List String) :
    SettingsState × Except JsError Unit :=
  let dataV := st.data.getD JsonValue.null
  match getProp dataV "hooks" with
  | .error e => (st, .error e)
  | .ok none => (st, .ok ())
  | .ok (some hv) =>
      if !hv.truthy then (st, .ok ())
      else
        match dataV with
        | .obj fields =>
            let hv' := removeHooksStep hookNames hv
            let fields' :=
              if jsKeysCount hv' = 0 then eraseField fields "hooks"
              else setField fields "hooks" hv'
            ({ st with data := some (JsonValue.obj fields') },
              validateSettings st.path (JsonValue.obj fields'))
        | _ => (st, .ok ())

def ClaudeSettings.removeHooks (st : SettingsState) (hookNames : List String) :
    SettingsState × Except JsError Unit :=
  if st.loaded then ClaudeSettings.removeHooksLoaded st hookNames
  else
    match ClaudeSettings.load st with
    | .error e => (st, .error e)
    | .ok (st', _) => ClaudeSettings.removeHooksLoaded st' hookNames

/-- `ClaudeSettings.removeAllHooks` after the auto-load: delete a truthy
`hooks` key, then re-validate. -/
def ClaudeSettings.removeAllHooksLoaded (st : SettingsState) :
    SettingsState × Except JsError Unit :=
  let dataV := st.data.getD JsonValue.null
  match getProp dataV "hooks" with
  | .error e => (st, .error e)
  | .ok p =>
      let st' :=
        match p, dataV with
        | some hv, .obj fields =>
            if hv.truthy then { st with data := some (JsonValue.obj (eraseField fields "hooks")) }
            else st
        | _, _ => st
      (st', validateSettings st'.path (st'.data.getD JsonValue.null))

def ClaudeSettings.removeAllHooks (st : SettingsState) : SettingsState × Except JsError Unit :=
  if st.loaded then ClaudeSettings.removeAllHooksLoaded st
  else
    match ClaudeSettings.load st with
    | .error e => (st, .error e)
    | .ok (st', _) => ClaudeSettings.removeAllHooksLoaded st'

/-- `ClaudeSettings.getInstalledHookNames`: requires `_loaded`; returns
`Object.keys(this.data.hooks)` when `hooks` is truthy, else `[]`. -/
def ClaudeSettings.getInstalledHookNames (st : SettingsState) : Except JsError (List String) :=
  if !st.loaded then
    .error (.settings ⟨"Settings not loaded. Call load() first.", .getHooks, st.path⟩)
  else
    match getProp (st.data.getD JsonValue.null) "hooks" with
    | .error e => .error e
    | .ok p =>
        .ok (match p with
          | some hv => if hv.truthy then jsKeysList hv else []
          | none => [])

/-! Observation helpers used only to state theorems. -/

/-- The value of a top-level key of the in-memory document. -/
def topLookup (st : SettingsState) (key : String) : Option JsonValue :=
  match st.data with
  | some (.obj fields) => lookupField fields key
  | _ => none

/-- The value of one event key of the in-memory document's `hooks` map. -/
def docHooksLookup (st : SettingsState) (key : String) : Option JsonValue :=
  match topLookup st "hooks" with
  | some (.obj hfields) => lookupField hfields key
  | _ => none

/-- Whether the in-memory document has a `hooks` key at all. -/
def docHasHooksKey (st : SettingsState) : Bool :=
  (topLookup st "hooks").isSome

/-! ## Helper lemmas about the object-field operations -/

theorem mem_of_mem_jsTrim {c : Char} {l : List Char} (h : c ∈ jsTrim l) : c ∈ l := by
  unfold jsTrim at h
  have h1 := List.mem_reverse.mp h
  have h2 := (List.dropWhile_sublist (l := (l.dropWhile isJsSpace).reverse)
    (p := isJsSpace)).mem h1
  have h3 := List.mem_reverse.mp h2
  exact (List.dropWhile_sublist (l := l) (p := isJsSpace)).mem h3

theorem lookupField_append (a b : List (String × JsonValue)) (k : String) :
    lookupField (a ++ b) k =
      match lookupField a k with
      | some v => some v
      | none => lookupField b k := by
  induction a with
  | nil => simp [lookupField]
  | cons p rest ih =>
      obtain ⟨k1, v1⟩ := p
      by_cases h : k1 = k <;> simp [lookupField, h, ih]

theorem lookupField_map_override (a b : List (String × JsonValue)) (k : String) :
    lookupField (a.map (fun p =>
        match lookupField b p.1 with | some v => (p.1, v) | none => p)) k =
      match lookupField a k with
      | none => none
      | some v => some (match lookupField b k with | some w => w | none => v) := by
  induction a with
  | nil => simp [lookupField]
  | cons p rest ih =>
      obtain ⟨k1, v1⟩ := p
      by_cases h : k1 = k
      · subst h
        cases hb : lookupField b k1 <;> simp [lookupField, hb]
      · cases hb : lookupField b k1 <;> simp [lookupField, hb, h, ih]

theorem lookupField_filter_keyNone (a b : List (String × JsonValue)) (k : String)
    (h : lookupField a k = none) :
    lookupField (b.filter (fun p => (lookupField a p.1).isNone)) k = lookupField b k := by
  induction b with
  | nil => simp [lookupField]
  | cons p rest ih =>
      obtain ⟨k1, v1⟩ := p
      rw [List.filter_cons]
      by_cases hk : k1 = k
      · subst hk
        simp only [h, Option.isNone_none, if_pos]
        simp [lookupField]
      · cases ha : lookupField a k1
        · simp only [Option.isNone_none, if_pos]
          simp [lookupField, hk, ih]
        · rw [if_neg (by simp [ha])]
          rw [ih]
          simp [lookupField, hk]

theorem lookupField_jsSpread2 (a b : List (String × JsonValue)) (k : String) :
    lookupField (jsSpread2 a b) k =
      match lookupField b k with
      | some v => some v
      | none => lookupField a k := by
  unfold jsSpread2
  rw [lookupField_append, lookupField_map_override]
  cases ha : lookupField a k with
  | some v => cases hb : lookupField b k <;> simp
  | none =>
      rw [lookupField_filter_keyNone a b k ha]
      cases hb : lookupField b k <;> simp

theorem lookupField_setField_self (fs : List (String × JsonValue)) (k : String) (v : JsonValue) :
    lookupField (setField fs k v) k = some v := by
  induction fs with
  | nil => simp [setField, lookupField]
  | cons p rest ih =>
      obtain ⟨k1, v1⟩ := p
      by_cases h : k1 = k <;> simp [setField, lookupField, h, ih]

theorem lookupField_setField_ne (fs : List (String × JsonValue)) (k k2 : String) (v : JsonValue)
    (h : k2 ≠ k) : lookupField (setField fs k v) k2 = lookupField fs k2 := by
  induction fs with
  | nil => simp [setField, lookupField, Ne.symm h]
  | cons p rest ih =>
      obtain ⟨k1, v1⟩ := p
      by_cases h1 : k1 = k
      · subst h1
        simp [setField, lookupField, Ne.symm h]
      · simp [setField, lookupField, h1, ih]

theorem setField_eq_self (fs : List (String × JsonValue)) (k : String) (v : JsonValue)
    (h : lookupField fs k = some v) : setField fs k v = fs := by
  induction fs with
  | nil => simp [lookupField] at h
  | cons p rest ih =>
      obtain ⟨k1, v1⟩ := p
      by_cases h1 : k1 = k
      · subst h1
        simp [lookupField] at h
        simp [setField, h]
      · simp [lookupField, h1] at h
        simp [setField, h1, ih h]

theorem setField_setField (fs : List (String × JsonValue)) (k : String) (v w : JsonValue) :
    setField (setField fs k v) k w = setField fs k w := by
  induction fs with
  | nil => simp [setField]
  | cons p rest ih =>
      obtain ⟨k1, v1⟩ := p
      by_cases h1 : k1 = k <;> simp [setField, h1, ih]

theorem lookupField_eraseField_self (fs : List (String × JsonValue)) (k : String) :
    lookupField (eraseField fs k) k = none := by
  unfold eraseField
  simp only [ne_eq, decide_not]
  induction fs with
  | nil => simp [lookupField]
  | cons p rest ih =>
      obtain ⟨k1, v1⟩ := p
      rw [List.filter_cons]
      by_cases h : k1 = k
      · rw [if_neg (by simp [h])]
        exact ih
      · rw [if_pos (by simp [h])]
        simp [lookupField, h, ih]

theorem lookupField_eraseField_ne (fs : List (String × JsonValue)) (k k2 : String)
    (h : k2 ≠ k) : lookupField (eraseField fs k) k2 = lookupField fs k2 := by
  unfold eraseField
  simp only [ne_eq, decide_not]
  induction fs with
  | nil => simp
  | cons p rest ih =>
      obtain ⟨k1, v1⟩ := p
      rw [List.filter_cons]
      by_cases h1 : k1 = k
      · rw [if_neg (by simp [h1])]
        rw [ih]
        have hne : k1 ≠ k2 := by rw [h1]; exact Ne.symm h
        simp [lookupField, hne]
      · rw [if_pos (by simp [h1])]
        simp [lookupField, ih]

theorem lookupField_mem {fs : List (String × JsonValue)} {k : String} {v : JsonValue}
    (h : lookupField fs k = some v) : (k, v) ∈ fs := by
  induction fs with
  | nil => simp [lookupField] at h
  | cons p rest ih =>
      obtain ⟨k1, v1⟩ := p
      by_cases h1 : k1 = k
      · subst h1
        simp [lookupField] at h
        simp [h]
      · simp [lookupField, h1] at h
        simp [ih h]

theorem mem_eraseField {fs : List (String × JsonValue)} {k : String} {p : String × JsonValue}
    (h : p ∈ eraseField fs k) : p ∈ fs ∧ p.1 ≠ k := by
  have := List.mem_filter.mp h
  exact ⟨this.1, by simpa using this.2⟩

theorem not_mem_of_lookupField_none {fs : List (String × JsonValue)} {k : String}
    (h : lookupField fs k = none) (v : JsonValue) : (k, v) ∉ fs := by
  induction fs with
  | nil => simp
  | cons p rest ih =>
      obtain ⟨k1, v1⟩ := p
      by_cases h1 : k1 = k
      · subst h1
        simp [lookupField] at h
      · simp [lookupField, h1] at h
        simp [ih h, Ne.symm h1]


theorem eraseField_eq_self_of_none {fs : List (String × JsonValue)} {k : String}
    (h : lookupField fs k = none) : eraseField fs k = fs := by
  apply List.filter_eq_self.mpr
  intro p hp
  obtain ⟨pk, pv⟩ := p
  simp only [ne_eq, decide_not, Bool.not_eq_eq_eq_not, Bool.not_true, decide_eq_false_iff_not]
  intro he
  subst he
  exact not_mem_of_lookupField_none h pv hp

theorem removeHookNamesFold_covered :
    ∀ (names : List String) (hfields : List (String × JsonValue)),
    (∀ p ∈ hfields, p.1 ∈ names ∧ p.2.truthy = true) →
    removeHookNamesFold hfields names = [] := by
  intro names
  induction names with
  | nil =>
      intro hfields h
      match hfields with
      | [] => rfl
      | p :: rest => exact absurd (h p (by simp)).1 (by simp)
  | cons n ns ih =>
      intro hfields h
      show removeHookNamesFold
        (match lookupField hfields n with
          | some v => if v.truthy then eraseField hfields n else hfields
          | none => hfields) ns = []
      cases hl : lookupField hfields n with
      | none =>
          simp only [hl]
          rw [← eraseField_eq_self_of_none hl]
          apply ih
          intro p hp
          have hmem := mem_eraseField hp
          rcases h p hmem.1 with ⟨hin, htr2⟩
          rcases List.mem_cons.mp hin with he | hi
          · exact absurd he hmem.2
          · exact ⟨hi, htr2⟩
      | some v =>
          have htr : v.truthy = true := (h (n, v) (lookupField_mem hl)).2
          simp only [hl, htr, if_pos]
          apply ih
          intro p hp
          have hmem := mem_eraseField hp
          rcases h p hmem.1 with ⟨hin, htr2⟩
          rcases List.mem_cons.mp hin with he | hi
          · exact absurd he hmem.2
          · exact ⟨hi, htr2⟩

theorem validateHooksEntries_ok_isArr {path : String} :
    ∀ {l : List (String × JsonValue)}, validateHooksEntries path l = .ok () →
    ∀ p ∈ l, p.2.isArr = true := by
  intro l
  induction l with
  | nil => intro _ p hp; simp at hp
  | cons q rest ih =>
      obtain ⟨name, cfg⟩ := q
      intro h p hp
      rw [validateHooksEntries] at h
      cases hc : validateHookConfig path name cfg with
      | error e => rw [hc] at h; exact absurd h (by simp)
      | ok u =>
          rw [hc] at h
          rcases List.mem_cons.mp hp with he | hi
          · subst he
            cases cfg with
            | arr items => rfl
            | _ => simp [validateHookConfig] at hc
          · exact ih h p hi

theorem validateSettings_ok_entries {path : String}
    {fields hfields : List (String × JsonValue)}
    (hl : lookupField fields "hooks" = some (.obj hfields))
    (h : validateSettings path (.obj fields) = .ok ()) :
    validateHooksEntries path hfields = .ok () := by
  unfold validateSettings at h
  simp only [JsonValue.isNull, JsonValue.typeofIsObject, Bool.not_true, Bool.or_false,
    Bool.false_or, getProp, hl, JsonValue.truthy, objEntries, if_false] at h
  exact h

theorem mergeHooksLoaded_data (st : SettingsState) (fields nf : List (String × JsonValue))
    (hd : st.data = some (.obj fields)) :
    ClaudeSettings.mergeHooksLoaded st (.obj nf) =
      ({ st with data := some (.obj (setField fields "hooks"
          (.obj (jsSpread2 (hooksInitEntries fields) nf)))) },
        validateSettings st.path (.obj (setField fields "hooks"
          (.obj (jsSpread2 (hooksInitEntries fields) nf))))) := by
  unfold ClaudeSettings.mergeHooksLoaded
  rw [if_neg (by simp [JsonValue.truthy, JsonValue.typeofIsObject])]
  rw [hd]
  simp [objEntries]

theorem mergeHooks_hooks_lookup (st : SettingsState) (fields nf : List (String × JsonValue))
    (hl : st.loaded = true) (hd : st.data = some (.obj fields)) (k : String) :
    docHooksLookup (ClaudeSettings.mergeHooks st (.obj nf)).fst k =
      match lookupField nf k with
      | some v => some v
      | none => lookupField (hooksInitEntries fields) k := by
  rw [ClaudeSettings.mergeHooks, if_pos (by rw [hl]), mergeHooksLoaded_data st fields nf hd]
  unfold docHooksLookup topLookup
  simp only [lookupField_setField_self]
  rw [lookupField_jsSpread2]

theorem mergeHooks_fst_loaded (st : SettingsState) (fields nf : List (String × JsonValue))
    (hl : st.loaded = true) (hd : st.data = some (.obj fields)) :
    (ClaudeSettings.mergeHooks st (.obj nf)).fst.loaded = true ∧
    (ClaudeSettings.mergeHooks st (.obj nf)).fst.data =
      some (.obj (setField fields "hooks" (.obj (jsSpread2 (hooksInitEntries fields) nf)))) := by
  rw [ClaudeSettings.mergeHooks, if_pos (by rw [hl]), mergeHooksLoaded_data st fields nf hd]
  exact ⟨hl, rfl⟩

/-! ## Claim theorems -/

/-- C3: `mergeHooks` is a shallow per-event overwrite merge: afterwards every
event key present in `newHooks` maps exactly to its `newHooks` value, every
event key not present in `newHooks` keeps its previous value, and merging
`{A: X}` then `{A: Y}` leaves event `A` equal to `Y`. -/
theorem claim_C3_merge_shallow_overwrite (st : SettingsState)
    (fields nf : List (String × JsonValue)) (A : String) (X Y : JsonValue)
    (hl : st.loaded = true) (hd : st.data = some (.obj fields)) :
    (∀ k v, lookupField nf k = some v →
      docHooksLookup (ClaudeSettings.mergeHooks st (.obj nf)).fst k = some v) ∧
    (∀ k, lookupField nf k = none →
      docHooksLookup (ClaudeSettings.mergeHooks st (.obj nf)).fst k =
        lookupField (hooksInitEntries fields) k) ∧
    docHooksLookup ((ClaudeSettings.mergeHooks
      ((ClaudeSettings.mergeHooks st (.obj [(A, X)])).fst) (.obj [(A, Y)])).fst) A = some Y := by
  refine ⟨?_, ?_, ?_⟩
  · intro k v hk
    rw [mergeHooks_hooks_lookup st fields nf hl hd k, hk]
  · intro k hk
    rw [mergeHooks_hooks_lookup st fields nf hl hd k, hk]
  · obtain ⟨hl1, hd1⟩ := mergeHooks_fst_loaded st fields [(A, X)] hl hd
    rw [mergeHooks_hooks_lookup _ _ [(A, Y)] hl1 hd1 A]
    simp [lookupField]

/-- C3 witness: a concrete loaded document; merging `{A: X}` then `{A: Y}`
leaves `A` at `Y`, and the untouched event `B` keeps its value. -/
theorem claim_C3_witness :
    docHooksLookup ((ClaudeSettings.mergeHooks
      ((ClaudeSettings.mergeHooks
        ⟨"p", none, none, some (.obj [("hooks", .obj [("B", .arr [])])]), true⟩
        (.obj [("A", .arr [.obj [("hooks", .arr [.str "x"])]])])).fst)
      (.obj [("A", .arr [.obj [("hooks", .arr [.str "y"])]])])).fst) "A" =
      some (.arr [.obj [("hooks", .arr [.str "y"])]]) ∧
    docHooksLookup ((ClaudeSettings.mergeHooks
      ⟨"p", none, none, some (.obj [("hooks", .obj [("B", .arr [])])]), true⟩
      (.obj [("A", .arr [])])).fst) "B" = some (.arr []) :=
  ⟨(claim_C3_merge_shallow_overwrite
      ⟨"p", none, none, some (.obj [("hooks", .obj [("B", .arr [])])]), true⟩
      [("hooks", .obj [("B", .arr [])])] [("A", .arr [.obj [("hooks", .arr [.str "x"])]])]
      "A" (.arr [.obj [("hooks", .arr [.str "x"])]]) (.arr [.obj [("hooks", .arr [.str "y"])]])
      rfl rfl).2.2,
   by
    rw [(claim_C3_merge_shallow_overwrite
      ⟨"p", none, none, some (.obj [("hooks", .obj [("B", .arr [])])]), true⟩
      [("hooks", .obj [("B", .arr [])])] [("A", .arr [])]
      "A" (.arr []) (.arr []) rfl rfl).2.1 "B" rfl]
    rfl⟩

/-- C9: `mergeHooks` is not atomic on validation failure — when the merged
hooks map fails structural validation, the raised Validate error leaves the
in-memory document already holding the merged (invalid) map, with no
rollback. -/
theorem claim_C9_merge_not_atomic (st : SettingsState)
    (fields nf : List (String × JsonValue)) (e : JsError)
    (hl : st.loaded = true) (hd : st.data = some (.obj fields))
    (hv : validateSettings st.path (.obj (setField fields "hooks"
        (.obj (jsSpread2 (hooksInitEntries fields) nf)))) = .error e) :
    (ClaudeSettings.mergeHooks st (.obj nf)).fst.data =
      some (.obj (setField fields "hooks"
        (.obj (jsSpread2 (hooksInitEntries fields) nf)))) ∧
    (ClaudeSettings.mergeHooks st (.obj nf)).snd = .error e := by
  rw [ClaudeSettings.mergeHooks, if_pos (by rw [hl]), mergeHooksLoaded_data st fields nf hd]
  exact ⟨rfl, hv⟩

/-- C9 witness: merging `{A: 5}` into a loaded empty document raises the
Validate error for `A`, yet the in-memory document holds `hooks.A = 5`. -/
theorem claim_C9_witness :
    (ClaudeSettings.mergeHooks ⟨"p", none, none, some (.obj []), true⟩
      (.obj [("A", .num 5)])).fst.data = some (.obj [("hooks", .obj [("A", .num 5)])]) ∧
    (ClaudeSettings.mergeHooks ⟨"p", none, none, some (.obj []), true⟩
      (.obj [("A", .num 5)])).snd =
      .error (.settings ⟨"Hook 'A' must be an array", .validate, "p"⟩) :=
  claim_C9_merge_not_atomic ⟨"p", none, none, some (.obj []), true⟩ [] [("A", .num 5)]
    (.settings ⟨"Hook 'A' must be an array", .validate, "p"⟩) rfl rfl rfl

/-- C5: `load` yields an empty document when the file is missing, an empty
document when the file is blank (empty or whitespace-only), and a
Parse-operation `SettingsError` carrying the underlying parser message when
the file holds malformed JSON. -/
theorem claim_C5_load_behavior :
    (∀ st : SettingsState, st.disk = none →
      ClaudeSettings.load st = .ok ({ st with data := some (.obj []), loaded := true }, .obj [])) ∧
    (∀ st : SettingsState, st.disk = some .blank →
      ClaudeSettings.load st = .ok ({ st with data := some (.obj []), loaded := true }, .obj [])) ∧
    (∀ (st : SettingsState) (msg : String), st.disk = some (.invalid msg) →
      ClaudeSettings.load st =
        .error (.settings ⟨"Invalid JSON in settings file: " ++ msg, .parse, st.path⟩)) := by
  refine ⟨?_, ?_, ?_⟩
  · intro st h
    rw [ClaudeSettings.load, h]
  · intro st h
    rw [ClaudeSettings.load, h]
  · intro st msg h
    rw [ClaudeSettings.load, h]

/-- C5 witness: the three behaviors at concrete states. -/
theorem claim_C5_witness :
    ClaudeSettings.load ⟨"p", none, none, none, false⟩ =
      .ok (⟨"p", none, none, some (.obj []), true⟩, .obj []) ∧
    ClaudeSettings.load ⟨"p", some .blank, none, none, false⟩ =
      .ok (⟨"p", some .blank, none, some (.obj []), true⟩, .obj []) ∧
    ClaudeSettings.load ⟨"p", some (.invalid "Unexpected end of JSON input"), none, none, false⟩ =
      .error (.settings ⟨"Invalid JSON in settings file: Unexpected end of JSON input",
        .parse, "p"⟩) :=
  ⟨claim_C5_load_behavior.1 _ rfl, claim_C5_load_behavior.2.1 _ rfl,
    claim_C5_load_behavior.2.2 _ _ rfl⟩

/-- C4: for a structurally valid document `d`, `save(d)` succeeds and a
subsequent `load()` returns a document deep-equal to `d`; in particular all
top-level keys, recognized or not, survive the round trip verbatim. -/
theorem claim_C4_save_load_round_trip (st : SettingsState) (d : JsonValue)
    (h : validateSettings st.path d = .ok ()) :
    (ClaudeSettings.save st (some d)).snd = .ok () ∧
    (ClaudeSettings.load (ClaudeSettings.save st (some d)).fst).map Prod.snd = .ok d := by
  cases hdisk : st.disk with
  | none =>
      constructor
      · simp [ClaudeSettings.save, h, hdisk]
      · simp [ClaudeSettings.save, ClaudeSettings.load, h, hdisk, Except.map]
  | some ft =>
      constructor
      · simp [ClaudeSettings.save, h, hdisk]
      · simp [ClaudeSettings.save, ClaudeSettings.load, h, hdisk, Except.map]

/-- C4 witness: a concrete valid document with an unrecognized top-level key
round-trips through `save`/`load` unchanged. -/
theorem claim_C4_witness :
    (ClaudeSettings.save ⟨"p", some .blank, none, none, false⟩
      (some (.obj [("hooks", .obj [("Notification", .arr [.obj [("hooks", .arr [])]])]),
        ("extra", .str "kept")]))).snd = .ok () ∧
    (ClaudeSettings.load (ClaudeSettings.save ⟨"p", some .blank, none, none, false⟩
      (some (.obj [("hooks", .obj [("Notification", .arr [.obj [("hooks", .arr [])]])]),
        ("extra", .str "kept")]))).fst).map Prod.snd =
      .ok (.obj [("hooks", .obj [("Notification", .arr [.obj [("hooks", .arr [])]])]),
        ("extra", .str "kept")]) :=
  claim_C4_save_load_round_trip ⟨"p", some .blank, none, none, false⟩
    (.obj [("hooks", .obj [("Notification", .arr [.obj [("hooks", .arr [])]])]),
      ("extra", .str "kept")]) rfl

/-- C8: on both platforms, `createCommand` with a non-string or empty
`eventAction` fails with the command-build error; the guard inspects the raw
argument, before any sanitization. -/
theorem claim_C8_createCommand_guard (action : JsonValue) (withSound : Bool)
    (h : action.isStr = false ∨ action = .str "") :
    MacOSPlatform.createCommand action withSound = .error "Action must be a non-empty string" ∧
    WindowsPlatform.createCommand action withSound = .error "Action must be a non-empty string" := by
  rcases h with h | h
  · cases action <;>
      simp_all [JsonValue.isStr, MacOSPlatform.createCommand, WindowsPlatform.createCommand]
  · subst h
    simp [MacOSPlatform.createCommand, WindowsPlatform.createCommand]

/-- C8 witness: `createCommand("", false)` fails on both platforms. -/
theorem claim_C8_witness :
    MacOSPlatform.createCommand (.str "") false = .error "Action must be a non-empty string" ∧
    WindowsPlatform.createCommand (.str "") false = .error "Action must be a non-empty string" :=
  claim_C8_createCommand_guard (.str "") false (Or.inr rfl)

/-- C10: `removeHooks` and `removeAllHooks` modify at most the top-level
`hooks` key — on a loaded document every other top-level key keeps its
value. -/
theorem claim_C10_remove_frame (st : SettingsState) (names : List String) (key : String)
    (hl : st.loaded = true) (hk : key ≠ "hooks") :
    topLookup (ClaudeSettings.removeHooks st names).fst key = topLookup st key ∧
    topLookup (ClaudeSettings.removeAllHooks st).fst key = topLookup st key := by
  constructor
  · rw [ClaudeSettings.removeHooks, if_pos (by rw [hl])]
    cases hd : st.data with
    | none => simp [ClaudeSettings.removeHooksLoaded, hd, getProp]
    | some v =>
        cases v with
        | null => simp [ClaudeSettings.removeHooksLoaded, hd, getProp]
        | obj fields =>
            cases hlk : lookupField fields "hooks" with
            | none => simp [ClaudeSettings.removeHooksLoaded, hd, getProp, hlk]
            | some hv =>
                by_cases htr : hv.truthy = true
                · cases hv <;>
                    · simp only [ClaudeSettings.removeHooksLoaded, hd, Option.getD_some,
                        getProp, hlk, htr, Bool.not_true, Bool.false_eq_true, if_false]
                      split <;>
                        simp [topLookup, hd, lookupField_eraseField_ne _ _ _ hk,
                          lookupField_setField_ne _ _ _ _ hk]
                · simp [ClaudeSettings.removeHooksLoaded, hd, getProp, hlk, htr]
        | bool b => simp [ClaudeSettings.removeHooksLoaded, hd, getProp]
        | num n => simp [ClaudeSettings.removeHooksLoaded, hd, getProp]
        | str s => simp [ClaudeSettings.removeHooksLoaded, hd, getProp]
        | arr elems => simp [ClaudeSettings.removeHooksLoaded, hd, getProp]
  · rw [ClaudeSettings.removeAllHooks, if_pos (by rw [hl])]
    cases hd : st.data with
    | none => simp [ClaudeSettings.removeAllHooksLoaded, hd, getProp]
    | some v =>
        cases v with
        | null => simp [ClaudeSettings.removeAllHooksLoaded, hd, getProp]
        | obj fields =>
            cases hlk : lookupField fields "hooks" with
            | none => simp [ClaudeSettings.removeAllHooksLoaded, hd, getProp, hlk]
            | some hv =>
                by_cases htr : hv.truthy = true
                · simp [ClaudeSettings.removeAllHooksLoaded, hd, getProp, hlk, htr,
                    topLookup, lookupField_eraseField_ne _ _ _ hk]
                · simp [ClaudeSettings.removeAllHooksLoaded, hd, getProp, hlk, htr]
        | bool b => simp [ClaudeSettings.removeAllHooksLoaded, hd, getProp]
        | num n => simp [ClaudeSettings.removeAllHooksLoaded, hd, getProp]
        | str s => simp [ClaudeSettings.removeAllHooksLoaded, hd, getProp]
        | arr elems => simp [ClaudeSettings.removeAllHooksLoaded, hd, getProp]

/-- C10 witness: on a concrete document, removing hooks leaves the other
top-level key `other` untouched. -/
theorem claim_C10_witness :
    topLookup (ClaudeSettings.removeHooks
      ⟨"p", none, none, some (.obj [("other", .num 7), ("hooks", .obj [("A", .arr [])])]), true⟩
      ["A"]).fst "other" = some (.num 7) ∧
    topLookup (ClaudeSettings.removeAllHooks
      ⟨"p", none, none, some (.obj [("other", .num 7), ("hooks", .obj [("A", .arr [])])]), true⟩
      ).fst "other" = some (.num 7) := by
  have h := claim_C10_remove_frame
    ⟨"p", none, none, some (.obj [("other", .num 7), ("hooks", .obj [("A", .arr [])])]), true⟩
    ["A"] "other" rfl (by decide)
  exact ⟨h.1.trans rfl, h.2.trans rfl⟩

/-- C2 counterexample: the AppleScript sanitizer does not remove the claimed
character set — it returns `"$"` unchanged, and escaping `"` produces an
output containing both a backslash and the double quote. -/
theorem claim_C2_counterexample :
    '$' ∈ (ValidationUtils.sanitizeForAppleScript (.str "$")).toList ∧
    '\\' ∈ (ValidationUtils.sanitizeForAppleScript (.str "\"")).toList ∧
    '"' ∈ (ValidationUtils.sanitizeForAppleScript (.str "\"")).toList := by
  refine ⟨?_, ?_, ?_⟩ <;> decide

/-- C2 (amended): the generic sanitizer and the PowerShell sanitizer remove
every occurrence of backtick, dollar, double quote, backslash, semicolon,
pipe and ampersand; the AppleScript sanitizer instead escapes
quotes/backslashes and may keep all of these characters. -/
theorem claim_C2_sanitizers_strip (s : String) (c : Char)
    (h : c = backtickChar ∨ c = '$' ∨ c = '"' ∨ c = '\\' ∨ c = ';' ∨ c = '|' ∨ c = '&') :
    c ∉ (ValidationUtils.sanitizeInput (.str s)).toList ∧
    c ∉ (ValidationUtils.sanitizeForPowerShell (.str s)).toList := by
  have hks : ∀ l : List Char, c ∉ keepSafe l := by
    intro l hc
    have h2 := (List.mem_filter.mp hc).2
    rcases h with h|h|h|h|h|h|h <;> subst h <;> exact absurd h2 (by decide)
  constructor
  · intro hc
    replace hc : c ∈ jsTrim (keepSafe (removeDangerous s.toList)) := hc
    exact hks _ (mem_of_mem_jsTrim hc)
  · intro hc
    replace hc : c ∈ jsTrim (keepSafe (removeDangerous (escapePsQuotes s.toList))) := hc
    exact hks _ (mem_of_mem_jsTrim hc)

/-- C2 witness: the semicolon of `"a;b"` is gone from both stripped
outputs. -/
theorem claim_C2_witness :
    ';' ∉ (ValidationUtils.sanitizeInput (.str "a;b")).toList ∧
    ';' ∉ (ValidationUtils.sanitizeForPowerShell (.str "a;b")).toList :=
  claim_C2_sanitizers_strip "a;b" ';' (by decide)

theorem removeHooksLoaded_fst_loaded (st : SettingsState) (names : List String) :
    (ClaudeSettings.removeHooksLoaded st names).fst.loaded = st.loaded := by
  unfold ClaudeSettings.removeHooksLoaded
  cases hdv : st.data.getD JsonValue.null with
  | obj fields =>
      simp only [hdv, getProp]
      cases lookupField fields "hooks" with
      | none => rfl
      | some hv =>
          by_cases htr : hv.truthy = true <;> simp [htr]
  | null => simp [hdv, getProp]
  | bool b => simp [hdv, getProp]
  | num n => simp [hdv, getProp]
  | str s => simp [hdv, getProp]
  | arr es => simp [hdv, getProp]

theorem removeHookNamesFold_single (hfields : List (String × JsonValue)) (n : String) :
    removeHookNamesFold hfields [n] =
      match lookupField hfields n with
      | some v => if v.truthy then eraseField hfields n else hfields
      | none => hfields := rfl

theorem removeHookNamesFold_single_idem (hfields : List (String × JsonValue)) (n : String) :
    removeHookNamesFold (removeHookNamesFold hfields [n]) [n] =
      removeHookNamesFold hfields [n] := by
  rw [removeHookNamesFold_single hfields n]
  cases hl : lookupField hfields n with
  | none => rw [removeHookNamesFold_single, hl]
  | some v =>
      dsimp only
      by_cases htr : v.truthy = true
      · rw [if_pos htr, removeHookNamesFold_single, lookupField_eraseField_self]
      · rw [if_neg htr, removeHookNamesFold_single, hl]
        dsimp only
        rw [if_neg htr]

theorem removeHooksLoaded_on_erased (st1 : SettingsState)
    (fields : List (String × JsonValue)) (name : String)
    (hd1 : st1.data = some (.obj (eraseField fields "hooks"))) :
    (ClaudeSettings.removeHooksLoaded st1 [name]).fst = st1 := by
  unfold ClaudeSettings.removeHooksLoaded
  simp [hd1, getProp, lookupField_eraseField_self]

theorem removeHooksLoaded_on_set (st1 : SettingsState)
    (fields : List (String × JsonValue)) (name : String) (hv1 : JsonValue)
    (hd1 : st1.data = some (.obj (setField fields "hooks" hv1)))
    (htr1 : hv1.truthy = true)
    (hstable : removeHooksStep [name] hv1 = hv1)
    (hcount : jsKeysCount hv1 ≠ 0) :
    (ClaudeSettings.removeHooksLoaded st1 [name]).fst = st1 := by
  unfold ClaudeSettings.removeHooksLoaded
  rw [hd1]
  simp only [Option.getD_some, getProp, lookupField_setField_self, htr1,
    Bool.not_true, Bool.false_eq_true, if_false, hstable, if_neg hcount, setField_setField]
  rw [← hd1]

theorem removeHooksStep_truthy (names : List String) (hv : JsonValue)
    (h : hv.truthy = true) : (removeHooksStep names hv).truthy = true := by
  cases hv <;> simp_all [removeHooksStep, JsonValue.truthy]

theorem removeHooksStep_idem (name : String) (hv : JsonValue) :
    removeHooksStep [name] (removeHooksStep [name] hv) = removeHooksStep [name] hv := by
  cases hv <;> simp [removeHooksStep, removeHookNamesFold_single_idem]

theorem removeHooksLoaded_fst_idem (st : SettingsState) (name : String) :
    (ClaudeSettings.removeHooksLoaded
      (ClaudeSettings.removeHooksLoaded st [name]).fst [name]).fst =
      (ClaudeSettings.removeHooksLoaded st [name]).fst := by
  cases hdv : st.data.getD JsonValue.null with
  | null =>
      have hfst : (ClaudeSettings.removeHooksLoaded st [name]).fst = st := by
        unfold ClaudeSettings.removeHooksLoaded
        simp [hdv, getProp]
      rw [hfst]
      exact hfst
  | bool b =>
      have hfst : (ClaudeSettings.removeHooksLoaded st [name]).fst = st := by
        unfold ClaudeSettings.removeHooksLoaded
        simp [hdv, getProp]
      rw [hfst]
      exact hfst
  | num n =>
      have hfst : (ClaudeSettings.removeHooksLoaded st [name]).fst = st := by
        unfold ClaudeSettings.removeHooksLoaded
        simp [hdv, getProp]
      rw [hfst]
      exact hfst
  | str s =>
      have hfst : (ClaudeSettings.removeHooksLoaded st [name]).fst = st := by
        unfold ClaudeSettings.removeHooksLoaded
        simp [hdv, getProp]
      rw [hfst]
      exact hfst
  | arr es =>
      have hfst : (ClaudeSettings.removeHooksLoaded st [name]).fst = st := by
        unfold ClaudeSettings.removeHooksLoaded
        simp [hdv, getProp]
      rw [hfst]
      exact hfst
  | obj fields =>
      cases hlk : lookupField fields "hooks" with
      | none =>
          have hfst : (ClaudeSettings.removeHooksLoaded st [name]).fst = st := by
            unfold ClaudeSettings.removeHooksLoaded
            simp [hdv, getProp, hlk]
          rw [hfst]
          exact hfst
      | some hv =>
          by_cases htr : hv.truthy = true
          · by_cases hz : jsKeysCount (removeHooksStep [name] hv) = 0
            · have hfst : (ClaudeSettings.removeHooksLoaded st [name]).fst =
                  { st with data := some (.obj (eraseField fields "hooks")) } := by
                unfold ClaudeSettings.removeHooksLoaded
                simp [hdv, getProp, hlk, htr, hz]
              rw [hfst]
              exact removeHooksLoaded_on_erased _ fields name rfl
            · have hfst : (ClaudeSettings.removeHooksLoaded st [name]).fst =
                  { st with data := some (.obj (setField fields "hooks"
                    (removeHooksStep [name] hv))) } := by
                unfold ClaudeSettings.removeHooksLoaded
                simp [hdv, getProp, hlk, htr, hz]
              rw [hfst]
              exact removeHooksLoaded_on_set _ fields name (removeHooksStep [name] hv) rfl
                (removeHooksStep_truthy [name] hv htr) (removeHooksStep_idem name hv) hz
          · have hfst : (ClaudeSettings.removeHooksLoaded st [name]).fst = st := by
              unfold ClaudeSettings.removeHooksLoaded
              simp [hdv, getProp, hlk, htr]
            rw [hfst]
            exact hfst

/-- C6 counterexample: on the loaded document `{"hooks": {}}`, the key `"Z"`
is absent from the hooks map, yet `removeHooks(["Z"])` changes the document —
the cleanup step deletes the (already empty) `hooks` key. -/
theorem claim_C6_counterexample :
    docHooksLookup ⟨"p", none, none, some (.obj [("hooks", .obj [])]), true⟩ "Z" = none ∧
    topLookup ⟨"p", none, none, some (.obj [("hooks", .obj [])]), true⟩ "hooks" =
      some (.obj []) ∧
    (ClaudeSettings.removeHooks
      ⟨"p", none, none, some (.obj [("hooks", .obj [])]), true⟩ ["Z"]).snd = .ok () ∧
    topLookup (ClaudeSettings.removeHooks
      ⟨"p", none, none, some (.obj [("hooks", .obj [])]), true⟩ ["Z"]).fst "hooks" = none :=
  ⟨rfl, rfl, rfl, rfl⟩

/-- C6 (amended): `removeHooks(["A"])` twice produces the same document as
once, for every loaded document; removing an event key that is absent from
the hooks map raises no error and leaves the document unchanged provided the
document is structurally valid and the hooks map is non-empty (when the
hooks map is empty the cleanup step still deletes the `hooks` key, and on a
structurally invalid document the post-removal validation raises a Validate
error); when the document has no `hooks` key at all the call is a strict
no-op. -/
theorem claim_C6_remove_idempotent :
    (∀ (st : SettingsState) (name : String), st.loaded = true →
      (ClaudeSettings.removeHooks (ClaudeSettings.removeHooks st [name]).fst [name]).fst =
        (ClaudeSettings.removeHooks st [name]).fst) ∧
    (∀ (st : SettingsState) (fields hfields : List (String × JsonValue)) (name : String),
      st.loaded = true → st.data = some (.obj fields) →
      lookupField fields "hooks" = some (.obj hfields) → hfields ≠ [] →
      lookupField hfields name = none →
      validateSettings st.path (.obj fields) = .ok () →
      ClaudeSettings.removeHooks st [name] = (st, .ok ())) ∧
    (∀ (st : SettingsState) (fields : List (String × JsonValue)) (name : String),
      st.loaded = true → st.data = some (.obj fields) →
      lookupField fields "hooks" = none →
      ClaudeSettings.removeHooks st [name] = (st, .ok ())) := by
  refine ⟨?_, ?_, ?_⟩
  · intro st name hl
    have h1 : ClaudeSettings.removeHooks st [name] =
        ClaudeSettings.removeHooksLoaded st [name] := by
      rw [ClaudeSettings.removeHooks, if_pos (by rw [hl])]
    have hl2 : (ClaudeSettings.removeHooksLoaded st [name]).fst.loaded = true := by
      rw [removeHooksLoaded_fst_loaded, hl]
    have h2 : ClaudeSettings.removeHooks
        (ClaudeSettings.removeHooksLoaded st [name]).fst [name] =
        ClaudeSettings.removeHooksLoaded
          (ClaudeSettings.removeHooksLoaded st [name]).fst [name] := by
      rw [ClaudeSettings.removeHooks, if_pos (by rw [hl2])]
    rw [h1, h2]
    exact removeHooksLoaded_fst_idem st name
  · intro st fields hfields name hl hd hlk hne hname hval
    rw [ClaudeSettings.removeHooks, if_pos (by rw [hl])]
    have hfold : removeHooksStep [name] (JsonValue.obj hfields) = JsonValue.obj hfields := by
      simp [removeHooksStep, removeHookNamesFold_single, hname]
    have hcount : jsKeysCount (JsonValue.obj hfields) ≠ 0 := by
      simp [jsKeysCount, jsKeysList, objEntries, List.length_eq_zero]
      exact hne
    unfold ClaudeSettings.removeHooksLoaded
    rw [hd]
    simp only [Option.getD_some, getProp, hlk, JsonValue.truthy, Bool.not_true,
      Bool.false_eq_true, if_false, hfold, if_neg hcount,
      setField_eq_self fields "hooks" (JsonValue.obj hfields) hlk, hval]
    rw [← hd]
  · intro st fields name hl hd hlk
    rw [ClaudeSettings.removeHooks, if_pos (by rw [hl])]
    unfold ClaudeSettings.removeHooksLoaded
    rw [hd]
    simp [getProp, hlk]

/-- C6 witness: the three amended behaviors at concrete loaded documents. -/
theorem claim_C6_witness :
    (ClaudeSettings.removeHooks (ClaudeSettings.removeHooks
      ⟨"p", none, none, some (.obj [("hooks", .obj [("A", .arr [])])]), true⟩ ["A"]).fst
      ["A"]).fst =
      (ClaudeSettings.removeHooks
        ⟨"p", none, none, some (.obj [("hooks", .obj [("A", .arr [])])]), true⟩ ["A"]).fst ∧
    ClaudeSettings.removeHooks
      ⟨"p", none, none,
        some (.obj [("hooks", .obj [("B", .arr [.obj [("hooks", .arr [])]])])]), true⟩ ["Z"] =
      (⟨"p", none, none,
        some (.obj [("hooks", .obj [("B", .arr [.obj [("hooks", .arr [])]])])]), true⟩, .ok ()) ∧
    ClaudeSettings.removeHooks
      ⟨"p", none, none, some (.obj [("extra", .num 1)]), true⟩ ["A"] =
      (⟨"p", none, none, some (.obj [("extra", .num 1)]), true⟩, .ok ()) :=
  ⟨claim_C6_remove_idempotent.1
      ⟨"p", none, none, some (.obj [("hooks", .obj [("A", .arr [])])]), true⟩ "A" rfl,
   claim_C6_remove_idempotent.2.1
      ⟨"p", none, none,
        some (.obj [("hooks", .obj [("B", .arr [.obj [("hooks", .arr [])]])])]), true⟩
      [("hooks", .obj [("B", .arr [.obj [("hooks", .arr [])]])])]
      [("B", .arr [.obj [("hooks", .arr [])]])] "Z" rfl rfl rfl (by simp) rfl rfl,
   claim_C6_remove_idempotent.2.2
      ⟨"p", none, none, some (.obj [("extra", .num 1)]), true⟩
      [("extra", .num 1)] "A" rfl rfl rfl⟩

theorem removeHooks_cleanup_of_fold_nil (st : SettingsState)
    (fields hfields : List (String × JsonValue)) (names : List String)
    (hl : st.loaded = true) (hd : st.data = some (.obj fields))
    (hlk : lookupField fields "hooks" = some (.obj hfields))
    (hempty : removeHookNamesFold hfields names = []) :
    docHasHooksKey (ClaudeSettings.removeHooks st names).fst = false := by
  rw [ClaudeSettings.removeHooks, if_pos (by rw [hl])]
  unfold ClaudeSettings.removeHooksLoaded
  rw [hd]
  simp only [Option.getD_some, getProp, hlk, JsonValue.truthy, Bool.not_true,
    Bool.false_eq_true, if_false, removeHooksStep, hempty]
  simp [docHasHooksKey, topLookup, jsKeysCount, jsKeysList, objEntries,
    lookupField_eraseField_self]

/-- C7 counterexample: on the loaded document `{"hooks": {"A": null}}` the
only installed event is `A`, yet `removeHooks(["A"])` leaves the `hooks` key
in place — the deletion guard `if (this.data.hooks[hookName])` skips the
falsy value, so the map never empties and the cleanup never fires. -/
theorem claim_C7_counterexample :
    ClaudeSettings.getInstalledHookNames
      ⟨"p", none, none, some (.obj [("hooks", .obj [("A", .null)])]), true⟩ = .ok ["A"] ∧
    docHasHooksKey (ClaudeSettings.removeHooks
      ⟨"p", none, none, some (.obj [("hooks", .obj [("A", .null)])]), true⟩ ["A"]).fst = true :=
  ⟨rfl, rfl⟩

/-- C7 (amended): whenever the deletion loop empties the hooks map, the
`hooks` key itself is deleted (so an empty hooks object is never kept); and
on a structurally valid loaded document, removing every installed event
name leaves the document with no `hooks` key at all.  (On an invalid
document a key bound to a falsy value is skipped by the deletion guard and
can keep the `hooks` key alive.) -/
theorem claim_C7_empty_cleanup :
    (∀ (st : SettingsState) (fields hfields : List (String × JsonValue)) (names : List String),
      st.loaded = true → st.data = some (.obj fields) →
      lookupField fields "hooks" = some (.obj hfields) →
      removeHookNamesFold hfields names = [] →
      docHasHooksKey (ClaudeSettings.removeHooks st names).fst = false) ∧
    (∀ (st : SettingsState) (fields hfields : List (String × JsonValue)),
      st.loaded = true → st.data = some (.obj fields) →
      lookupField fields "hooks" = some (.obj hfields) →
      validateSettings st.path (.obj fields) = .ok () →
      ClaudeSettings.getInstalledHookNames st = .ok (hfields.map Prod.fst) ∧
      docHasHooksKey (ClaudeSettings.removeHooks st (hfields.map Prod.fst)).fst = false) := by
  constructor
  · intro st fields hfields names hl hd hlk hempty
    exact removeHooks_cleanup_of_fold_nil st fields hfields names hl hd hlk hempty
  · intro st fields hfields hl hd hlk hval
    have htruthy : ∀ p ∈ hfields, p.2.truthy = true := by
      intro p hp
      have harr := validateHooksEntries_ok_isArr (validateSettings_ok_entries hlk hval) p hp
      cases hv2 : p.2 <;> simp_all [JsonValue.isArr, JsonValue.truthy]
    have hcov : ∀ p ∈ hfields, p.1 ∈ hfields.map Prod.fst ∧ p.2.truthy = true := by
      intro p hp
      exact ⟨List.mem_map_of_mem Prod.fst hp, htruthy p hp⟩
    have hempty := removeHookNamesFold_covered (hfields.map Prod.fst) hfields hcov
    constructor
    · unfold ClaudeSettings.getInstalledHookNames
      simp [hl, hd, getProp, hlk, JsonValue.truthy, jsKeysList, objEntries]
    · exact removeHooks_cleanup_of_fold_nil st fields hfields (hfields.map Prod.fst)
        hl hd hlk hempty

/-- C7 witness: a valid document with the two events installed; removing
both leaves no `hooks` key. -/
theorem claim_C7_witness :
    ClaudeSettings.getInstalledHookNames
      ⟨"p", none, none, some (.obj [("hooks", .obj
        [("Notification", .arr [.obj [("hooks", .arr [])]]),
         ("Stop", .arr [.obj [("hooks", .arr [])]])])]), true⟩ =
      .ok ["Notification", "Stop"] ∧
    docHasHooksKey (ClaudeSettings.removeHooks
      ⟨"p", none, none, some (.obj [("hooks", .obj
        [("Notification", .arr [.obj [("hooks", .arr [])]]),
         ("Stop", .arr [.obj [("hooks", .arr [])]])])]), true⟩
      ["Notification", "Stop"]).fst = false :=
  claim_C7_empty_cleanup.2
    ⟨"p", none, none, some (.obj [("hooks", .obj
      [("Notification", .arr [.obj [("hooks", .arr [])]]),
       ("Stop", .arr [.obj [("hooks", .arr [])]])])]), true⟩
    [("hooks", .obj [("Notification", .arr [.obj [("hooks", .arr [])]]),
      ("Stop", .arr [.obj [("hooks", .arr [])]])])]
    [("Notification", .arr [.obj [("hooks", .arr [])]]),
     ("Stop", .arr [.obj [("hooks", .arr [])]])] rfl rfl rfl rfl

theorem mem_toList_append {c : Char} (s t : String) :
    c ∈ (s ++ t).toList ↔ c ∈ s.toList ∨ c ∈ t.toList := by
  simp [String.toList]

theorem mem_intercalate_go {c : Char} (sep : String) :
    ∀ (l : List String) (acc : String), c ∈ acc.toList →
      c ∈ (String.intercalate.go acc sep l).toList := by
  intro l
  induction l with
  | nil =>
      intro acc h
      simpa [String.intercalate.go] using h
  | cons x xs ih =>
      intro acc h
      show c ∈ (String.intercalate.go (acc ++ sep ++ x) sep xs).toList
      exact ih _ ((mem_toList_append _ _).mpr (Or.inl ((mem_toList_append _ _).mpr (Or.inl h))))

theorem semicolon_mem_intercalate (x y : String) (l : List String) :
    ';' ∈ (String.intercalate "; " (x :: y :: l)).toList := by
  show ';' ∈ (String.intercalate.go x "; " (y :: l)).toList
  show ';' ∈ (String.intercalate.go (x ++ "; " ++ y) "; " l).toList
  apply mem_intercalate_go
  exact (mem_toList_append _ _).mpr (Or.inl ((mem_toList_append _ _).mpr (Or.inr (by decide))))

theorem isStringSafe_false_of_semicolon {s : String} (h : ';' ∈ s.toList) :
    ValidationUtils.isStringSafe s = false := by
  have hA : s.toList.any
      (fun c => c = ';' || c = '&' || c = '|' || c = backtickChar || c = '$') = true :=
    List.any_eq_true.mpr ⟨';', h, by decide⟩
  unfold ValidationUtils.isStringSafe
  simp only [hA, Bool.true_or, Bool.not_true]

theorem validateCommand_unsafe_of_semicolon {s p : String} (h : ';' ∈ s.toList) :
    ValidationUtils.validateCommand s p =
      .invalid "Command contains potentially dangerous patterns" "UNSAFE_COMMAND" := by
  have hne : s ≠ "" := by
    intro he
    subst he
    exact absurd h (by decide)
  unfold ValidationUtils.validateCommand
  rw [if_neg hne, isStringSafe_false_of_semicolon h]
  simp

/-- Every command the Windows platform builds is rejected by the
defense-in-depth validator: the PowerShell template joins its statements
with `"; "`, and `isStringSafe` rejects any command containing a
semicolon. -/
theorem winCommand_rejected (a : String) (w : Bool) (ha : a ≠ "") :
    (WindowsPlatform.createCommand (.str a) w).toOption.map
      (fun c => ValidationUtils.validateCommand c "windows") =
    some (.invalid "Command contains potentially dangerous patterns" "UNSAFE_COMMAND") := by
  unfold WindowsPlatform.createCommand
  dsimp only
  rw [if_neg ha]
  simp only [Except.toOption, Option.map]
  rw [validateCommand_unsafe_of_semicolon]
  apply (mem_toList_append _ _).mpr
  left
  apply (mem_toList_append _ _).mpr
  right
  exact semicolon_mem_intercalate _ _ _

set_option maxRecDepth 10000

/-- C1 counterexample: `validateCommand(createCommand("Completed", false),
"windows")` rejects the freshly built Windows command (its own template
contains `;` and `$`, which `isStringSafe` refuses), so the claimed
invariant fails on the Windows platform. -/
theorem claim_C1_counterexample :
    (WindowsPlatform.createCommand (.str "Completed") false).toOption.map
      (fun c => ValidationUtils.validateCommand c "windows") =
    some (.invalid "Command contains potentially dangerous patterns" "UNSAFE_COMMAND") :=
  winCommand_rejected "Completed" false (by decide)

/-- C1 (amended): for the event actions this system uses ("Completed",
"Stopped") and either sound flag, the macOS `createCommand` output satisfies
the invariant — `validateCommand(·, "macos")` accepts it; the Windows
`createCommand` output is instead rejected by `validateCommand` for every
non-empty action, and macOS acceptance also fails for actions containing
validator-rejected characters (for example `";"`, which the AppleScript
escaping does not remove). -/
theorem claim_C1_command_invariant :
    ((MacOSPlatform.createCommand (.str "Completed") true).toOption.map
      (fun c => ValidationUtils.validateCommand c "macos") = some .valid) ∧
    ((MacOSPlatform.createCommand (.str "Completed") false).toOption.map
      (fun c => ValidationUtils.validateCommand c "macos") = some .valid) ∧
    ((MacOSPlatform.createCommand (.str "Stopped") true).toOption.map
      (fun c => ValidationUtils.validateCommand c "macos") = some .valid) ∧
    ((MacOSPlatform.createCommand (.str "Stopped") false).toOption.map
      (fun c => ValidationUtils.validateCommand c "macos") = some .valid) ∧
    (∀ (a : String) (w : Bool), a ≠ "" →
      (WindowsPlatform.createCommand (.str a) w).toOption.map
        (fun c => ValidationUtils.validateCommand c "windows") =
      some (.invalid "Command contains potentially dangerous patterns" "UNSAFE_COMMAND")) :=
  ⟨by decide, by decide, by decide, by decide, winCommand_rejected⟩

/-- C1 witness: the Windows rejection instantiated at a concrete action. -/
theorem claim_C1_witness :
    (WindowsPlatform.createCommand (.str "X") true).toOption.map
      (fun c => ValidationUtils.validateCommand c "windows") =
    some (.invalid "Command contains potentially dangerous patterns" "UNSAFE_COMMAND") :=
  claim_C1_command_invariant.2.2.2.2 "X" true (by decide)
